import Mathlib

/-!
Verification of the minimal proof-of-work ledger (jonam/blockchain).

Two source variants are embedded:

* `src/intro/sufficient_balance.py` — hash-linked chain with balance
  bookkeeping and a solvency check (`add_block`, `is_chain_valid`,
  `calculate_balances`, `are_transactions_valid`).
* `src/intro/with_cryptographic_proof.py` — chain with JSON content
  hashing and a proof-of-work search (`Block.hash`, `proof_of_work`,
  `is_chain_valid`).

The SHA-256 primitive is the single external dependency; it is modelled
as a function parameter (`HashFn` over semantic block content for the
first variant, `HashW : String → String` over the serialized JSON text
for the second).  Claims that need collision-freeness take the
corresponding injectivity as a hypothesis; all remaining chain logic is
translated directly from the Python source.
-/

/-- A transaction, `Transaction.__init__` in both source files: a plain
(from_address, to_address, amount) triple.  Amounts are Python ints in
every use of the scripts; they are modelled as `Int`. -/
structure Transaction where
  from_address : String
  to_address : String
  amount : Int
deriving DecidableEq, Repr

/-- The reserved minting sentinel address, written `'System'` in the source. -/
def sysAddr : String := "System"

/-- The string `"0"` used as the genesis block's `previous_hash`. -/
def zeroStr : String := "0"

/-- The empty string, the stored `hash` of the genesis block in
`sufficient_balance.py` (`Block(0, "0", ts, [], "")`). -/
def emptyStr : String := ""

/-- Digest values.  In the source a digest is the hex string produced by
`hashlib.sha256(...).hexdigest()`; here the codomain of the hash
function is this inductive so that literal strings (`"0"`, `""`) and
hash outputs coexist, and so that a concrete injective hash function
(`Digest.node`) exists for instantiating collision-freeness
hypotheses. -/
inductive Digest where
  | raw : String → Digest
  | node : Nat → Digest → Nat → List Transaction → Digest
deriving DecidableEq, Repr

/-- A block of `sufficient_balance.py`: index, previous hash, timestamp,
transactions, stored hash (computed once at construction). -/
structure Block where
  index : Nat
  previous_hash : Digest
  timestamp : Nat
  transactions : List Transaction
  hash : Digest
deriving DecidableEq, Repr

/-- The hash primitive of `sufficient_balance.py`'s `calculate_hash`:
`sha256(str(index) + str(previous_hash) + str(timestamp) + transaction_data)`.
The SHA-256-of-serialization composite is abstracted as a parameter over
the semantic content it folds in. -/
abbrev HashFn := Nat → Digest → Nat → List Transaction → Digest

/-- `Blockchain.calculate_hash` of `sufficient_balance.py`: the digest of
a block's content fields. -/
def calculate_hash (H : HashFn) (index : Nat) (previous_hash : Digest)
    (timestamp : Nat) (transactions : List Transaction) : Digest :=
  H index previous_hash timestamp transactions

/-- `Blockchain.create_genesis_block`: `Block(0, "0", int(time.time()), [], "")`.
The wall-clock timestamp is a parameter. -/
def create_genesis_block (ts : Nat) : Block :=
  ⟨0, Digest.raw zeroStr, ts, [], Digest.raw emptyStr⟩

/-- The last block of a chain.  Models `self.blocks[index - 1]` with
`index = len(self.blocks)`; every chain in the source starts from the
genesis block and is never empty, so the default is unreachable. -/
def lastBlock : List Block → Block
  | [] => create_genesis_block 0
  | [b] => b
  | _ :: b :: t => lastBlock (b :: t)

/-- The balance dictionary of `calculate_balances`, an insertion-ordered
map from address to signed balance. -/
abbrev Balances := List (String × Int)

/-- Dictionary read with default 0: `balances.get(k, 0)`, equally the
read that follows the `if k not in balances: balances[k] = 0`
initialization. -/
def bget (m : Balances) (k : String) : Int :=
  match m with
  | [] => 0
  | (k', v) :: rest => if k' = k then v else bget rest k

/-- Dictionary write `balances[k] = v`: updates the first binding of `k`
or appends a new one, as a Python dict insert does. -/
def bset (m : Balances) (k : String) (v : Int) : Balances :=
  match m with
  | [] => [(k, v)]
  | (k', v') :: rest => if k' = k then (k', v) :: rest else (k', v') :: bset rest k v

/-- One committed transaction in `calculate_balances`: zero-initialize
both addresses if absent, then
`balances[from_address] -= amount; balances[to_address] += amount`.
Note this debits the sender unconditionally — also when the sender is
the `'System'` sentinel. -/
def applyTx (m : Balances) (t : Transaction) : Balances :=
  let m1 := bset m t.from_address (bget m t.from_address - t.amount)
  bset m1 t.to_address (bget m1 t.to_address + t.amount)

/-- One pending transaction in `calculate_balances`
(`sufficient_balance.py` lines 66-77): a `'System'`-sourced transaction
applies only the credit; any other transaction debits and credits as in
the committed pass. -/
def applyPendingTx (m : Balances) (t : Transaction) : Balances :=
  if t.from_address = sysAddr then
    bset m t.to_address (bget m t.to_address + t.amount)
  else
    applyTx m t

/-- The committed-blocks pass of `calculate_balances`: fold every
transaction of every block, in chain order. -/
def committedBalances (blocks : List Block) : Balances :=
  blocks.foldl (fun m b => b.transactions.foldl applyTx m) []

/-- `Blockchain.calculate_balances(pending_transactions)`: committed pass
then the pending pass.  `calculate_balances()` with no pending batch is
`calculate_balances c []` (Python skips the falsy `None`/empty list; the
fold over `[]` is the identity). -/
def calculate_balances (blocks : List Block) (pending : List Transaction) : Balances :=
  pending.foldl applyPendingTx (committedBalances blocks)

/-- The per-transaction test inside `are_transactions_valid`: a
`'System'`-sourced transaction always passes; otherwise the sender's
balance in the supplied mapping must cover the amount
(`from_balance < amount → invalid`). -/
def txAllowed (m : Balances) (t : Transaction) : Bool :=
  if t.from_address = sysAddr then true
  else decide (t.amount ≤ bget m t.from_address)

/-- `Blockchain.are_transactions_valid`: computes the post-batch balances
once (`calculate_balances(transactions)`), then checks every transaction
of the batch against that one final mapping. -/
def are_transactions_valid (c : List Block) (txs : List Transaction) : Bool :=
  txs.all (txAllowed (calculate_balances c txs))

/-- `Blockchain.add_block`: reject (chain unchanged, a message printed)
when the batch is insolvent; otherwise append a block whose
`previous_hash` is the stored hash of the current last block and whose
stored `hash` is computed from its own content. -/
def add_block (H : HashFn) (c : List Block) (ts : Nat) (txs : List Transaction) :
    List Block :=
  if are_transactions_valid c txs then
    c ++ [⟨c.length, (lastBlock c).hash, ts, txs,
           calculate_hash H c.length (lastBlock c).hash ts txs⟩]
  else c

/-- The two per-index checks of `is_chain_valid` at a consecutive pair:
the successor's stored hash must equal the recomputation from its own
fields, and its `previous_hash` must equal the predecessor's stored
hash. -/
def checkPair (H : HashFn) (prev cur : Block) : Bool :=
  decide (cur.hash = calculate_hash H cur.index cur.previous_hash cur.timestamp cur.transactions)
    && decide (cur.previous_hash = prev.hash)

/-- `Blockchain.is_chain_valid` of `sufficient_balance.py`: the loop
`for i in range(1, len(blocks))` with early `return False`, as the
conjunction of the pairwise checks. -/
def is_chain_valid (H : HashFn) : List Block → Bool
  | b0 :: b1 :: rest => checkPair H b0 b1 && is_chain_valid H (b1 :: rest)
  | _ => true

/-- A whole run of the script: successive `add_block` calls (timestamp,
batch) starting from the genesis chain.  Rejected batches leave the
chain unchanged, exactly as in `add_block`. -/
def buildChain (H : HashFn) (ts0 : Nat) (steps : List (Nat × List Transaction)) :
    List Block :=
  steps.foldl (fun c st => add_block H c st.1 st.2) [create_genesis_block ts0]

-- Demo data of the scripts.

/-- The address `"Alice"` of the demo scripts. -/
def Alice : String := "Alice"

/-- The address `"Bob"` of the demo scripts. -/
def Bob : String := "Bob"

/-- The address `"Charlie"` of the demo scripts. -/
def Charlie : String := "Charlie"

/-- The address `"Dave"` of the spec's rejection scenario. -/
def Dave : String := "Dave"

/-- The address `"Eve"` of the spec's rejection scenario. -/
def Eve : String := "Eve"

/-- The genesis funding batch: `System` mints 100 to each of Alice, Bob,
Charlie (`sufficient_balance.py` line 115, `with_cryptographic_proof.py`
line 62). -/
def mintBatch : List Transaction :=
  [⟨sysAddr, Alice, 100⟩, ⟨sysAddr, Bob, 100⟩, ⟨sysAddr, Charlie, 100⟩]

/-- First demo batch: Alice→Bob 50, Bob→Charlie 25. -/
def demoBatch1 : List Transaction := [⟨Alice, Bob, 50⟩, ⟨Bob, Charlie, 25⟩]

/-- Second demo batch: Charlie→Alice 10, Alice→Bob 5. -/
def demoBatch2 : List Transaction := [⟨Charlie, Alice, 10⟩, ⟨Alice, Bob, 5⟩]

/-- A concrete injective hash function for witnesses: the free
constructor of `Digest`. -/
def nodeH : HashFn := fun i p t txs => Digest.node i p t txs

/-- The transaction lists of a chain's blocks, in order.  Balance and
solvency computations depend on the chain only through this projection,
which the lemmas below exploit. -/
def txsOf (c : List Block) : List (List Transaction) := c.map Block.transactions

/-- The committed-blocks balance pass, expressed over bare transaction
lists. -/
def txsFold (l : List (List Transaction)) : Balances :=
  l.foldl (fun m txs => txs.foldl applyTx m) []

/-- `calculate_balances`, expressed over bare transaction lists. -/
def balancesOfTxs (l : List (List Transaction)) (p : List Transaction) : Balances :=
  p.foldl applyPendingTx (txsFold l)

/-- `are_transactions_valid`, expressed over bare transaction lists. -/
def validOfTxs (l : List (List Transaction)) (txs : List Transaction) : Bool :=
  txs.all (txAllowed (balancesOfTxs l txs))

/-- Modelled from the spec (§4.3, a design decision the spec itself notes
is not the literal source behavior): incremental solvency, walking the
batch in order and checking each non-sentinel sender against the
balances produced by the committed chain plus the earlier transactions
of the same batch, applying the pending-pass balance rule one
transaction at a time. -/
def incrementalGo (m : Balances) : List Transaction → Bool
  | [] => true
  | t :: rest =>
    if t.from_address = sysAddr then incrementalGo (applyPendingTx m t) rest
    else decide (t.amount ≤ bget m t.from_address) && incrementalGo (applyPendingTx m t) rest

/-- Modelled from the spec (§4.3): the incremental, order-respecting
solvency check mandated by the spec, to be compared with the source's
`are_transactions_valid`. -/
def are_transactions_valid_incremental (c : List Block) (txs : List Transaction) : Bool :=
  incrementalGo (committedBalances c) txs

/-- The chain after the genesis funding block of the demo
(`blockchain.add_block([Transaction("System", "Alice", 100), ...])`). -/
def demoChain1 (H : HashFn) (ts0 ts1 : Nat) : List Block :=
  add_block H [create_genesis_block ts0] ts1 mintBatch

/-- The demo chain after block 1 (Alice→Bob 50, Bob→Charlie 25). -/
def demoChain2 (H : HashFn) (ts0 ts1 ts2 : Nat) : List Block :=
  add_block H (demoChain1 H ts0 ts1) ts2 demoBatch1

/-- The demo chain after block 2 (Charlie→Alice 10, Alice→Bob 5). -/
def demoChain3 (H : HashFn) (ts0 ts1 ts2 ts3 : Nat) : List Block :=
  add_block H (demoChain2 H ts0 ts1 ts2) ts3 demoBatch2

-- The `with_cryptographic_proof.py` variant.

/-- A block of `with_cryptographic_proof.py`: `Block.__init__` sets
`timestamp` (wall clock, modelled as a parameter-supplied `Nat`),
`transactions`, `previous_hash` (a hex digest string, `"0"` for
genesis) and `proof = 0`, the nonce mutated by `proof_of_work`. -/
structure BlockW where
  timestamp : Nat
  transactions : List Transaction
  previous_hash : String
  proof : Nat
deriving DecidableEq, Repr

/-- The separator `", "` that `json.dumps` places between items. -/
def sepStr : String := ", "

/-- `Transaction.to_dict` as serialized inside `Block.hash` by
`json.dumps(..., sort_keys=True)`: keys in sorted order
(amount, from_address, to_address).  String escaping of exotic address
characters is not modelled; the demo uses plain identifiers. -/
def txJson (t : Transaction) : String :=
  "\x7b\"amount\": " ++ toString t.amount ++ ", \"from_address\": \"" ++
    t.from_address ++ "\", \"to_address\": \"" ++ t.to_address ++ "\"\x7d"

/-- `Block.hash`'s serialization: `json.dumps(block_dict, sort_keys=True)`
over the keys previous_hash, proof, timestamp, transactions (sorted
order), transactions replaced by their `to_dict` forms. -/
def blockJson (b : BlockW) : String :=
  "\x7b\"previous_hash\": \"" ++ b.previous_hash ++ "\", \"proof\": " ++
    toString b.proof ++ ", \"timestamp\": " ++ toString b.timestamp ++
    ", \"transactions\": [" ++ String.intercalate sepStr (b.transactions.map txJson) ++
    "]\x7d"

/-- The `hashlib.sha256(...).hexdigest()` primitive, abstracted as a
function on the serialized block text. -/
abbrev HashW := String → String

/-- `Block.hash` of `with_cryptographic_proof.py`: digest of the JSON
serialization of the block's current field values, recomputed on every
call (never cached). -/
def hashW (Hw : HashW) (b : BlockW) : String := Hw (blockJson b)

/-- The block with its `proof` field replaced, modelling the
`block.proof = n` mutations of `proof_of_work`. -/
def withProof (b : BlockW) (n : Nat) : BlockW :=
  ⟨b.timestamp, b.transactions, b.previous_hash, n⟩

/-- The difficulty target `"0" * difficulty`, as a character list. -/
def powTargetList (d : Nat) : List Char := List.replicate d '0'

/-- The proof-of-work predicate `block.hash()[:difficulty] == "0" * difficulty`
(the loop guard of `proof_of_work`): the first `d` characters of the
digest are all `'0'`. -/
def is_valid_pow (Hw : HashW) (b : BlockW) (d : Nat) : Bool :=
  decide ((hashW Hw b).toList.take d = powTargetList d)

/-- The search loop of `proof_of_work` from a given nonce: test the
current nonce, else increment by 1 and continue.  The Python loop is
unbounded; `fuel` bounds the number of nonces tried, `none` meaning the
search did not terminate within the budget. -/
def powGo (Hw : HashW) (b : BlockW) (d : Nat) : Nat → Nat → Option Nat
  | 0, _ => none
  | fuel + 1, n =>
    if is_valid_pow Hw (withProof b n) d then some n else powGo Hw b d fuel (n + 1)

/-- `Blockchain.proof_of_work`: `block.proof = 0`, then increment until
the difficulty predicate holds; returns the winning nonce (also left
installed on the block, which `withProof b n` reconstructs). -/
def proof_of_work (Hw : HashW) (b : BlockW) (d fuel : Nat) : Option Nat :=
  powGo Hw b d fuel 0

/-- The two per-index checks of `with_cryptographic_proof.py`'s
`is_chain_valid`, exactly as written in the source: the first compares
`current.hash()` against `current.hash()` itself (the same expression,
freshly recomputed twice), the second compares `current.previous_hash`
with `previous.hash()`. -/
def checkPairW (Hw : HashW) (prev cur : BlockW) : Bool :=
  decide (hashW Hw cur = hashW Hw cur) && decide (cur.previous_hash = hashW Hw prev)

/-- `Blockchain.is_chain_valid` of `with_cryptographic_proof.py`: the
loop `for i in range(1, len(blocks))` with early `return False`. -/
def is_chain_validW (Hw : HashW) : List BlockW → Bool
  | b0 :: b1 :: rest => checkPairW Hw b0 b1 && is_chain_validW Hw (b1 :: rest)
  | _ => true

/-- The genesis block of `with_cryptographic_proof.py`'s demo run:
the three `System` mints, `previous_hash = "0"`, some mined proof. -/
def demoWGenesis (ts p : Nat) : BlockW := ⟨ts, mintBatch, zeroStr, p⟩

/-- Block 1 of the demo run: `previous_hash = self.blocks[-1].hash()`. -/
def demoWBlock1 (Hw : HashW) (ts0 p0 ts1 p1 : Nat) : BlockW :=
  ⟨ts1, demoBatch1, hashW Hw (demoWGenesis ts0 p0), p1⟩

/-- Block 2's batch after the script's tampering line
`blockchain.blocks[2].transactions[0].amount = 1000`. -/
def tamperedBatch2 : List Transaction := [⟨Charlie, Alice, 1000⟩, ⟨Alice, Bob, 5⟩]

/-- Block 2 of the demo run, after its first transaction's amount has
been mutated to 1000.  Its `previous_hash` (recorded before the
mutation) still matches block 1, and no later block records block 2's
digest. -/
def demoWBlock2T (Hw : HashW) (ts0 p0 ts1 p1 ts2 p2 : Nat) : BlockW :=
  ⟨ts2, tamperedBatch2, hashW Hw (demoWBlock1 Hw ts0 p0 ts1 p1), p2⟩

/-- Sum of all balances in the mapping (implicitly 0 for absent
addresses). -/
def sumBalances (m : Balances) : Int := (m.map Prod.snd).sum

-- Abstraction lemmas: chain computations through `txsOf`.

/-- The committed pass only reads the blocks' transaction lists. -/
theorem committedBalances_txsOf (c : List Block) :
    committedBalances c = txsFold (txsOf c) := by
  unfold committedBalances txsFold txsOf
  rw [List.foldl_map]

/-- `calculate_balances` only reads the blocks' transaction lists. -/
theorem calculate_balances_txsOf (c : List Block) (p : List Transaction) :
    calculate_balances c p = balancesOfTxs (txsOf c) p := by
  unfold calculate_balances balancesOfTxs
  rw [committedBalances_txsOf]

/-- The solvency check only reads the blocks' transaction lists. -/
theorem are_transactions_valid_txsOf (c : List Block) (txs : List Transaction) :
    are_transactions_valid c txs = validOfTxs (txsOf c) txs := by
  unfold are_transactions_valid validOfTxs
  rw [calculate_balances_txsOf]

/-- `add_block`'s effect on the chain's transaction lists. -/
theorem txsOf_add_block (H : HashFn) (c : List Block) (ts : Nat)
    (txs : List Transaction) :
    txsOf (add_block H c ts txs) =
      if validOfTxs (txsOf c) txs then txsOf c ++ [txs] else txsOf c := by
  unfold add_block
  rw [are_transactions_valid_txsOf]
  split
  · simp [txsOf]
  · rfl

-- Map lemmas for `bget`/`bset`.

/-- Reading after a write. -/
theorem bget_bset (m : Balances) (k a : String) (v : Int) :
    bget (bset m k v) a = if k = a then v else bget m a := by
  induction m with
  | nil => by_cases h : k = a <;> simp [bset, bget, h]
  | cons hd tl ih =>
    obtain ⟨k', v'⟩ := hd
    by_cases h1 : k' = k
    · subst h1
      by_cases h2 : k' = a <;> simp [bset, bget, h2]
    · by_cases h2 : k' = a
      · subst h2
        have : ¬ k = k' := fun h => h1 h.symm
        simp [bset, bget, h1, this]
      · simp [bset, bget, h1, h2, ih]

/-- A write shifts the total of all balances by the difference between
the new value and the value previously read at that key.  (The read and
the write both act on the first binding of the key, so no
distinct-keys invariant is needed.) -/
theorem sumBalances_bset (m : Balances) (k : String) (v : Int) :
    sumBalances (bset m k v) = sumBalances m - bget m k + v := by
  induction m with
  | nil => simp [bset, bget, sumBalances]
  | cons hd tl ih =>
    obtain ⟨k', v'⟩ := hd
    by_cases h : k' = k
    · simp [bset, bget, h, sumBalances]
      ring
    · simp [bset, bget, h, sumBalances] at ih ⊢
      omega

/-- A committed transaction moves `amount` from sender to receiver, so
the total of all balances is unchanged. -/
theorem sumBalances_applyTx (m : Balances) (t : Transaction) :
    sumBalances (applyTx m t) = sumBalances m := by
  unfold applyTx
  rw [sumBalances_bset, sumBalances_bset]
  omega

/-- The committed pass keeps the total of all balances at zero. -/
theorem sumBalances_txsFold (l : List (List Transaction)) :
    sumBalances (txsFold l) = 0 := by
  suffices h : ∀ (start : Balances),
      sumBalances (l.foldl (fun m txs => txs.foldl applyTx m) start) = sumBalances start by
    have := h []
    simpa [txsFold, sumBalances] using this
  induction l with
  | nil => intro start; rfl
  | cons hd tl ih =>
    intro start
    rw [List.foldl_cons, ih]
    clear ih
    induction hd generalizing start with
    | nil => rfl
    | cons t ts ihh => rw [List.foldl_cons, ihh, sumBalances_applyTx]

-- Chain validity helpers.

/-- Validity of a chain extended at the end: all the old pairwise checks
plus the check of the new last pair. -/
theorem is_chain_valid_append (H : HashFn) (c : List Block) (b : Block) (h : c ≠ []) :
    is_chain_valid H (c ++ [b]) =
      (is_chain_valid H c && checkPair H (lastBlock c) b) := by
  induction c with
  | nil => exact absurd rfl h
  | cons x t ih =>
    cases t with
    | nil => simp [is_chain_valid, lastBlock]
    | cons y t' =>
      have step : ((x :: y :: t') ++ [b]) = x :: ((y :: t') ++ [b]) := rfl
      rw [step]
      have ih' := ih (by simp)
      show (checkPair H x y && is_chain_valid H ((y :: t') ++ [b])) = _
      rw [ih']
      show _ = ((checkPair H x y && is_chain_valid H (y :: t')) && checkPair H (lastBlock (y :: t')) b)
      rw [Bool.and_assoc]

/-- `add_block` never empties the chain. -/
theorem add_block_ne_nil (H : HashFn) (c : List Block) (ts : Nat)
    (txs : List Transaction) (h : c ≠ []) : add_block H c ts txs ≠ [] := by
  unfold add_block
  split
  · simp
  · exact h

/-- A successful or failed `add_block` keeps the chain passing
`is_chain_valid`: a rejected batch leaves the chain untouched, and an
appended block stores exactly the hash that the verification loop will
recompute, with a `previous_hash` equal to the predecessor's stored
hash. -/
theorem add_block_preserves_valid (H : HashFn) (c : List Block) (ts : Nat)
    (txs : List Transaction) (hne : c ≠ []) (h : is_chain_valid H c = true) :
    is_chain_valid H (add_block H c ts txs) = true := by
  unfold add_block
  split
  · rw [is_chain_valid_append H c _ hne, h]
    simp [checkPair, calculate_hash]
  · exact h

/-- Every chain produced by folding `add_block` over a genesis chain
passes `is_chain_valid` and stays nonempty. -/
theorem foldl_add_block_valid (H : HashFn) (steps : List (Nat × List Transaction)) :
    ∀ c : List Block, c ≠ [] → is_chain_valid H c = true →
      (steps.foldl (fun ch st => add_block H ch st.1 st.2) c) ≠ [] ∧
      is_chain_valid H (steps.foldl (fun ch st => add_block H ch st.1 st.2) c) = true := by
  induction steps with
  | nil => exact fun c h1 h2 => ⟨h1, h2⟩
  | cons st rest ih =>
    intro c h1 h2
    exact ih _ (add_block_ne_nil H c st.1 st.2 h1)
      (add_block_preserves_valid H c st.1 st.2 h1 h2)

-- Pending-pass lemmas.

/-- One pending transaction's effect on the sentinel's balance: the
sentinel is only ever credited (when it is the receiver), never
debited, because a sentinel-sourced pending transaction skips the
debit and any other pending transaction debits a non-sentinel
sender. -/
theorem bget_applyPendingTx_sys (m : Balances) (t : Transaction) :
    bget (applyPendingTx m t) sysAddr =
      bget m sysAddr + (if t.to_address = sysAddr then t.amount else 0) := by
  unfold applyPendingTx applyTx
  by_cases hf : t.from_address = sysAddr
  · rw [if_pos hf, bget_bset]
    by_cases ht : t.to_address = sysAddr
    · rw [if_pos ht, if_pos ht, ht]
    · rw [if_neg ht, if_neg ht]
      omega
  · rw [if_neg hf]
    simp only [bget_bset]
    by_cases ht : t.to_address = sysAddr
    · rw [if_pos ht, if_pos ht, ht, if_neg hf]
    · rw [if_neg ht, if_neg ht, if_neg hf]
      omega

/-- The pending pass changes the sentinel's balance exactly by the sum
of the amounts credited to it; no pending transaction debits it. -/
theorem bget_pendingFold_sys (p : List Transaction) (m : Balances) :
    bget (p.foldl applyPendingTx m) sysAddr =
      bget m sysAddr +
        (p.map fun t => if t.to_address = sysAddr then t.amount else 0).sum := by
  induction p generalizing m with
  | nil => simp
  | cons t rest ih =>
    rw [List.foldl_cons, ih, bget_applyPendingTx_sys, List.map_cons, List.sum_cons]
    omega

/-- One pending transaction can only lower the balance of an address it
does not credit, provided its amount is non-negative. -/
theorem bget_applyPendingTx_le (m : Balances) (t : Transaction) (a : String)
    (hto : t.to_address ≠ a) (hamt : 0 ≤ t.amount) :
    bget (applyPendingTx m t) a ≤ bget m a := by
  unfold applyPendingTx applyTx
  by_cases hf : t.from_address = sysAddr
  · rw [if_pos hf, bget_bset, if_neg hto]
  · rw [if_neg hf]
    simp only [bget_bset]
    rw [if_neg hto]
    by_cases hfa : t.from_address = a
    · rw [if_pos hfa, hfa]
      omega
    · rw [if_neg hfa]

/-- The pending pass can only lower the balance of an address that none
of its transactions credit, provided all amounts are non-negative. -/
theorem bget_pendingFold_le (p : List Transaction) (a : String)
    (hto : ∀ t ∈ p, t.to_address ≠ a) (hamt : ∀ t ∈ p, 0 ≤ t.amount) :
    ∀ m : Balances, bget (p.foldl applyPendingTx m) a ≤ bget m a := by
  induction p with
  | nil => exact fun m => le_refl _
  | cons t rest ih =>
    intro m
    rw [List.foldl_cons]
    calc bget (rest.foldl applyPendingTx (applyPendingTx m t)) a
        ≤ bget (applyPendingTx m t) a :=
          ih (fun x hx => hto x (List.mem_cons_of_mem t hx))
             (fun x hx => hamt x (List.mem_cons_of_mem t hx)) _
      _ ≤ bget m a :=
          bget_applyPendingTx_le m t a (hto t (List.mem_cons_self t rest))
            (hamt t (List.mem_cons_self t rest))

-- The demo run, at the level of transaction lists.

/-- Transactions of the chain after the genesis funding block. -/
theorem txsOf_demoChain1 (H : HashFn) (ts0 ts1 : Nat) :
    txsOf (demoChain1 H ts0 ts1) = [[], mintBatch] := by
  unfold demoChain1
  rw [txsOf_add_block]
  have h0 : txsOf [create_genesis_block ts0] = [[]] := rfl
  rw [h0, if_pos (show validOfTxs [[]] mintBatch = true by decide)]
  rfl

/-- Transactions of the demo chain after block 1. -/
theorem txsOf_demoChain2 (H : HashFn) (ts0 ts1 ts2 : Nat) :
    txsOf (demoChain2 H ts0 ts1 ts2) = [[], mintBatch, demoBatch1] := by
  unfold demoChain2
  rw [txsOf_add_block, txsOf_demoChain1,
    if_pos (show validOfTxs [[], mintBatch] demoBatch1 = true by decide)]
  rfl

/-- Transactions of the demo chain after block 2. -/
theorem txsOf_demoChain3 (H : HashFn) (ts0 ts1 ts2 ts3 : Nat) :
    txsOf (demoChain3 H ts0 ts1 ts2 ts3) = [[], mintBatch, demoBatch1, demoBatch2] := by
  unfold demoChain3
  rw [txsOf_add_block, txsOf_demoChain2,
    if_pos (show validOfTxs [[], mintBatch, demoBatch1] demoBatch2 = true by decide)]
  rfl

-- Proof-of-work search lemma.

/-- If the bounded search returns a nonce from a given start, that nonce
is at least the start, satisfies the difficulty predicate, and is the
first such nonce at or after the start: the loop starts at the given
nonce and increments by 1, so every nonce below the winner was tried
and failed. -/
theorem powGo_some (Hw : HashW) (b : BlockW) (d : Nat) :
    ∀ fuel start n, powGo Hw b d fuel start = some n →
      start ≤ n ∧ is_valid_pow Hw (withProof b n) d = true ∧
      ∀ m, start ≤ m → m < n → is_valid_pow Hw (withProof b m) d = false := by
  intro fuel
  induction fuel with
  | zero =>
    intro start n h
    exact absurd h (by simp [powGo])
  | succ f ih =>
    intro start n h
    have hstep : powGo Hw b d (f + 1) start =
        if is_valid_pow Hw (withProof b start) d then some start
        else powGo Hw b d f (start + 1) := rfl
    rw [hstep] at h
    by_cases hv : is_valid_pow Hw (withProof b start) d = true
    · rw [if_pos hv] at h
      obtain rfl := Option.some.inj h
      exact ⟨le_refl _, hv, fun m h1 h2 => absurd h1 (by omega)⟩
    · rw [if_neg hv] at h
      obtain ⟨h1, h2, h3⟩ := ih (start + 1) n h
      refine ⟨by omega, h2, ?_⟩
      intro m hm1 hm2
      by_cases he : m = start
      · subst he
        exact Bool.eq_false_iff.mpr hv
      · exact h3 m (by omega) hm2

-- Claim theorems.

/-- C5: for every sequence of `add_block` calls starting from the
genesis chain (successful calls append, rejected ones leave the chain
untouched), `is_chain_valid` returns success immediately afterwards
with no intervening mutation.  `sufficient_balance.py` has no
difficulty parameter; the hash function is arbitrary. -/
theorem c5_link_integrity (H : HashFn) (ts0 : Nat)
    (steps : List (Nat × List Transaction)) :
    is_chain_valid H (buildChain H ts0 steps) = true :=
  (foldl_add_block_valid H steps [create_genesis_block ts0] (by simp) rfl).2

/-- C7: a batch rejected by the solvency check leaves the chain exactly
as it was — no block appended, length and every block unchanged.  (In
the source the rejection signal is the printed "Invalid transactions"
message and the early return.) -/
theorem c7_reject_no_mutation (H : HashFn) (c : List Block) (ts : Nat)
    (txs : List Transaction) (h : are_transactions_valid c txs = false) :
    add_block H c ts txs = c := by
  unfold add_block
  rw [h]
  rfl

/-- The spec's rejection scenario: Dave sends Eve 10 with balance 0. -/
def daveBatch : List Transaction := [⟨Dave, Eve, 10⟩]

/-- Witness for C7: on the genesis chain, the batch Dave→Eve 10 is
rejected and `add_block` returns the chain unchanged. -/
theorem c7_witness :
    are_transactions_valid [create_genesis_block 0] daveBatch = false ∧
    add_block nodeH [create_genesis_block 0] 5 daveBatch = [create_genesis_block 0] :=
  ⟨by decide, c7_reject_no_mutation nodeH [create_genesis_block 0] 5 daveBatch (by decide)⟩

/-- C10: over any chain built through `add_block` from genesis, the
balance mapping computed with no pending batch sums to exactly zero:
the committed pass debits every sender — `'System'` included — by the
amount it credits the receiver. -/
theorem c10_balances_sum_zero (H : HashFn) (ts0 : Nat)
    (steps : List (Nat × List Transaction)) :
    sumBalances (calculate_balances (buildChain H ts0 steps) []) = 0 := by
  rw [calculate_balances_txsOf]
  exact sumBalances_txsFold _

/-- C8: the demo scenario.  Genesis mints 100 each to Alice, Bob and
Charlie; block 1 commits Alice→Bob 50, Bob→Charlie 25; block 2 commits
Charlie→Alice 10, Alice→Bob 5.  Balances are Alice 50, Bob 125,
Charlie 125 after block 1 and Alice 55, Bob 130, Charlie 115 after
block 2, and `is_chain_valid` succeeds on the final chain, for every
hash function and all timestamps. -/
theorem c8_demo_scenario (H : HashFn) (ts0 ts1 ts2 ts3 : Nat) :
    bget (calculate_balances (demoChain2 H ts0 ts1 ts2) []) Alice = 50 ∧
    bget (calculate_balances (demoChain2 H ts0 ts1 ts2) []) Bob = 125 ∧
    bget (calculate_balances (demoChain2 H ts0 ts1 ts2) []) Charlie = 125 ∧
    bget (calculate_balances (demoChain3 H ts0 ts1 ts2 ts3) []) Alice = 55 ∧
    bget (calculate_balances (demoChain3 H ts0 ts1 ts2 ts3) []) Bob = 130 ∧
    bget (calculate_balances (demoChain3 H ts0 ts1 ts2 ts3) []) Charlie = 115 ∧
    is_chain_valid H (demoChain3 H ts0 ts1 ts2 ts3) = true := by
  have h2 := calculate_balances_txsOf (demoChain2 H ts0 ts1 ts2) []
  rw [txsOf_demoChain2] at h2
  have h3 := calculate_balances_txsOf (demoChain3 H ts0 ts1 ts2 ts3) []
  rw [txsOf_demoChain3] at h3
  refine ⟨?_, ?_, ?_, ?_, ?_, ?_, ?_⟩
  · rw [h2]; decide
  · rw [h2]; decide
  · rw [h2]; decide
  · rw [h3]; decide
  · rw [h3]; decide
  · rw [h3]; decide
  · unfold demoChain3 demoChain2 demoChain1
    apply add_block_preserves_valid
    · apply add_block_ne_nil
      apply add_block_ne_nil
      simp
    · apply add_block_preserves_valid
      · apply add_block_ne_nil
        simp
      · apply add_block_preserves_valid
        · simp
        · rfl

/-- The batch refuting C2's incremental-evaluation description: its
first transaction overdraws Alice, its second replenishes her from the
sentinel. -/
def c2Batch : List Transaction := [⟨Alice, Bob, 5⟩, ⟨sysAddr, Alice, 10⟩]

/-- Counterexample to C2: on the bare genesis chain the code accepts
`[Alice→Bob 5, System→Alice 10]`, although the prefix `[Alice→Bob 5]`
is insolvent — both under the spec's incremental check and under the
code's own check applied to the prefix alone.  The first transaction's
sender is thus checked against balances that include a later
transaction of the batch, not the state produced by the earlier ones. -/
theorem c2_counterexample :
    are_transactions_valid [create_genesis_block 0] c2Batch = true ∧
    are_transactions_valid_incremental [create_genesis_block 0] c2Batch = false ∧
    are_transactions_valid [create_genesis_block 0] [⟨Alice, Bob, 5⟩] = false := by
  refine ⟨by decide, by decide, by decide⟩

/-- C2 amended: the solvency check computes the post-batch balances once
(committed chain plus the whole batch under the pending rule) and
accepts exactly when every non-sentinel transaction's amount is covered
by its sender's balance in that single final mapping; it is not
incremental over prefixes. -/
theorem c2_amended_post_batch (c : List Block) (txs : List Transaction) :
    are_transactions_valid c txs = true ↔
      ∀ t ∈ txs, t.from_address ≠ sysAddr →
        t.amount ≤ bget (calculate_balances c txs) t.from_address := by
  unfold are_transactions_valid
  rw [List.all_eq_true]
  constructor
  · intro h t ht hns
    have h2 := h t ht
    unfold txAllowed at h2
    rw [if_neg hns] at h2
    exact of_decide_eq_true h2
  · intro h t ht
    unfold txAllowed
    by_cases hs : t.from_address = sysAddr
    · rw [if_pos hs]
    · rw [if_neg hs]
      exact decide_eq_true (h t ht hs)

/-- The batch refuting C3: the sentinel mints 10 to Alice and Alice then
spends 5, so Alice's balance rises from 0 to 5 although she appears as
a sender of the accepted batch. -/
def c3Batch : List Transaction := [⟨sysAddr, Alice, 10⟩, ⟨Alice, Bob, 5⟩]

/-- Counterexample to C3: on the bare genesis chain, the batch
`[System→Alice 10, Alice→Bob 5]` is accepted by the solvency check,
Alice is a non-sentinel sender in it, and Alice's balance after the
batch (5) is strictly greater than before it (0). -/
theorem c3_counterexample :
    are_transactions_valid [create_genesis_block 0] c3Batch = true ∧
    Alice ∈ c3Batch.map Transaction.from_address ∧
    Alice ≠ sysAddr ∧
    bget (calculate_balances [create_genesis_block 0] []) Alice <
      bget (calculate_balances [create_genesis_block 0] c3Batch) Alice := by
  refine ⟨by decide, by decide, by decide, by decide⟩

/-- C3 amended: an accepted batch never increases the balance of a
non-sentinel sender that none of the batch's transactions credit,
provided all amounts are non-negative.  (The original claim fails
precisely when the batch itself credits the sender, e.g. by a sentinel
mint, as `c3_counterexample` shows.) -/
theorem c3_amended_sender_monotone (c : List Block) (p : List Transaction)
    (a : String) (hacc : are_transactions_valid c p = true) (hns : a ≠ sysAddr)
    (hfrom : a ∈ p.map Transaction.from_address)
    (hto : ∀ t ∈ p, t.to_address ≠ a) (hamt : ∀ t ∈ p, 0 ≤ t.amount) :
    bget (calculate_balances c p) a ≤ bget (calculate_balances c []) a := by
  unfold calculate_balances
  exact bget_pendingFold_le p a hto hamt (committedBalances c)

/-- A chain whose one committed block mints 100 to Alice. -/
def aliceMintChain : List Block :=
  add_block nodeH [create_genesis_block 0] 1 [⟨sysAddr, Alice, 100⟩]

/-- Witness for C3 (amended): the committed chain funds Alice with 100;
the accepted batch `[Alice→Bob 5]` names Alice as sender, credits her
nowhere, and leaves her balance at 95 ≤ 100. -/
theorem c3_witness :
    are_transactions_valid aliceMintChain [⟨Alice, Bob, 5⟩] = true ∧
    Alice ≠ sysAddr ∧
    Alice ∈ ([⟨Alice, Bob, 5⟩] : List Transaction).map Transaction.from_address ∧
    (∀ t ∈ ([⟨Alice, Bob, 5⟩] : List Transaction), t.to_address ≠ Alice) ∧
    (∀ t ∈ ([⟨Alice, Bob, 5⟩] : List Transaction), 0 ≤ t.amount) ∧
    bget (calculate_balances aliceMintChain [⟨Alice, Bob, 5⟩]) Alice ≤
      bget (calculate_balances aliceMintChain []) Alice :=
  ⟨by decide, by decide, by decide, by decide, by decide,
    c3_amended_sender_monotone aliceMintChain [⟨Alice, Bob, 5⟩] Alice (by decide)
      (by decide) (by decide) (by decide) (by decide)⟩

/-- Counterexample to C4: after committing a single minting transaction
System→Alice 100, the balance computed over committed blocks gives the
sentinel −100 < 0: the committed pass of `calculate_balances` debits
the sentinel like any other sender (the credit-only rule exists only in
the pending pass of `sufficient_balance.py`, and not at all in
`with_cryptographic_proof.py`). -/
theorem c4_counterexample :
    bget (calculate_balances aliceMintChain []) sysAddr = -100 ∧
    bget (calculate_balances aliceMintChain []) sysAddr < 0 := by
  refine ⟨by decide, by decide⟩

/-- C4 amended: only the pending pass applies the credit-only sentinel
rule.  There the sentinel is indeed never debited: its balance after
the pending pass equals its balance from the committed chain plus
exactly the amounts the batch credits to it. -/
theorem c4_amended_pending_credit_only (c : List Block) (p : List Transaction) :
    bget (calculate_balances c p) sysAddr =
      bget (calculate_balances c []) sysAddr +
        (p.map fun t => if t.to_address = sysAddr then t.amount else 0).sum := by
  unfold calculate_balances
  rw [bget_pendingFold_sys]
  rfl

/-- C1, evaluated at the failing input: `with_cryptographic_proof.py`
builds the demo chain (genesis mint block, the two demo batches), the
script sets `blocks[2].transactions[0].amount = 1000` and its comment
says `is_chain_valid` "Should return False" — but the code returns
True for every hash function, every timestamp and every mined proof:
its digest self-check compares `current.hash()` against the
recomputation of the very same expression, and the tampered last block
has no successor whose recorded `previous_hash` could expose it. -/
theorem c1_tampered_last_block_passes (Hw : HashW) (ts0 p0 ts1 p1 ts2 p2 : Nat) :
    is_chain_validW Hw
      [demoWGenesis ts0 p0, demoWBlock1 Hw ts0 p0 ts1 p1,
        demoWBlock2T Hw ts0 p0 ts1 p1 ts2 p2] = true := by
  simp [is_chain_validW, checkPairW, demoWBlock1, demoWBlock2T]

/-- C6: whenever the proof-of-work search terminates (returns within
some fuel), the nonce it returns and installs is the least one whose
digest starts with `difficulty` `'0'` characters — the loop starts at
0 and increments by 1, so every smaller nonce was tried and failed —
and the returned nonce satisfies the puzzle; at difficulty 0 every
block validates regardless of nonce. -/
theorem c6_proof_of_work_least (Hw : HashW) (b : BlockW) (d fuel n : Nat)
    (h : proof_of_work Hw b d fuel = some n) :
    is_valid_pow Hw (withProof b n) d = true ∧
    (∀ m, m < n → is_valid_pow Hw (withProof b m) d = false) ∧
    (∀ b' : BlockW, is_valid_pow Hw b' 0 = true) := by
  obtain ⟨h1, h2, h3⟩ := powGo_some Hw b d fuel 0 n h
  exact ⟨h2, fun m hm => h3 m (Nat.zero_le m) hm, fun b' => rfl⟩

/-- The string `"1"`, a digest with no leading zero. -/
def oneStr : String := "1"

/-- A candidate block for the C6 witness. -/
def c6Block : BlockW := ⟨5, [], zeroStr, 0⟩

/-- A hash function for the C6 witness: only the serialization of
`c6Block` with nonce 1 digests to a string with a leading zero. -/
def c6Hash : HashW :=
  fun s => if s = blockJson (withProof c6Block 1) then zeroStr else oneStr

/-- Witness for C6: under `c6Hash` at difficulty 1, the search returns
nonce 1, nonce 1 validates, nonce 0 (the only smaller one) does not,
and difficulty 0 validates everything. -/
theorem c6_witness :
    proof_of_work c6Hash c6Block 1 2 = some 1 ∧
    (is_valid_pow c6Hash (withProof c6Block 1) 1 = true ∧
      (∀ m, m < 1 → is_valid_pow c6Hash (withProof c6Block m) 1 = false) ∧
      (∀ b' : BlockW, is_valid_pow c6Hash b' 0 = true)) :=
  ⟨by decide, c6_proof_of_work_least c6Hash c6Block 1 2 1 (by decide)⟩

/-- C9: the digest is a pure function of the block's field values —
two blocks agreeing on predecessor digest, timestamp, nonce and
transaction list have equal digests, for every hash primitive; nothing
is mutated, the serialization is recomputed from the fields alone. -/
theorem c9_digest_deterministic (Hw : HashW) (b1 b2 : BlockW)
    (hprev : b1.previous_hash = b2.previous_hash)
    (hts : b1.timestamp = b2.timestamp)
    (hproof : b1.proof = b2.proof)
    (htx : b1.transactions = b2.transactions) :
    hashW Hw b1 = hashW Hw b2 := by
  obtain ⟨t1, x1, q1, n1⟩ := b1
  obtain ⟨t2, x2, q2, n2⟩ := b2
  cases hprev
  cases hts
  cases hproof
  cases htx
  rfl

/-- The identity hash primitive, for the C9 witness. -/
def idHash : HashW := fun s => s

/-- A concrete block for the C9 witness. -/
def c9Block : BlockW := ⟨7, mintBatch, zeroStr, 3⟩

/-- Witness for C9 at a concrete block and hash primitive. -/
theorem c9_witness :
    c9Block.previous_hash = c9Block.previous_hash ∧
    c9Block.timestamp = c9Block.timestamp ∧
    c9Block.proof = c9Block.proof ∧
    c9Block.transactions = c9Block.transactions ∧
    hashW idHash c9Block = hashW idHash c9Block :=
  ⟨rfl, rfl, rfl, rfl,
    c9_digest_deterministic idHash c9Block c9Block rfl rfl rfl rfl⟩
